import Mathlib

/-!
# Fore-Poster: verification of the frontend date utilities, API status values,
# and SSE cache update

Shallow embedding of `src/frontend/src/utils/dateUtils.ts`,
`src/frontend/src/services/api.ts` and the `useSSE` hook.

Timestamps are modelled as milliseconds since an epoch (`Int`), in a uniform-day
calendar with no DST: the JS `Date` triple (getFullYear, getMonth, getDate) is
modelled by the calendar-day index `dayOf`, and `setHours(h, m, 0, 0)` by
rebuilding the timestamp from the day index.  All claims are invariant under
the choice of time zone offset, so the model fixes offset 0.
-/

namespace ForePoster

def msPerMinute : Int := 60000

def msPerHour : Int := 3600000

def msPerDay : Int := 86400000

/-- Calendar-day index of a timestamp: models the (year, month, date) triple of
a JS `Date`.  `Int` division `/` is Euclidean division, which for the positive
divisor `msPerDay` is floor division, matching JS local-date extraction for a
fixed offset. -/
def dayOf (t : Int) : Int := t / msPerDay

/-- Milliseconds elapsed since the start of `t`'s calendar day. -/
def timeOfDay (t : Int) : Int := t % msPerDay

/-- Models `Date.getHours()`. -/
def hourOf (t : Int) : Int := timeOfDay t / msPerHour

/-- Models `Date.getMinutes()`. -/
def minuteOf (t : Int) : Int := timeOfDay t % msPerHour / msPerMinute

/-- One entry of `OPTIMAL_POSTING_TIMES` (the `name` field is display-only and
irrelevant to the algorithm, so it is omitted). -/
structure TimePref where
  hour : Int
  minute : Int
deriving DecidableEq, Repr

/-- `OPTIMAL_POSTING_TIMES` from dateUtils.ts: 7:00, 11:00, 18:00. -/
def OPTIMAL_POSTING_TIMES : List TimePref := [⟨7, 0⟩, ⟨11, 0⟩, ⟨18, 0⟩]

/-- Models `createTimeSlot(baseDate, hour, minute)`: a copy of `baseDate` with
`setHours(hour, minute, 0, 0)` applied, i.e. the given time of day on
`baseDate`'s calendar day. -/
def createTimeSlot (baseDate hour minute : Int) : Int :=
  dayOf baseDate * msPerDay + hour * msPerHour + minute * msPerMinute

/-- Models `isPast(date)`, which compares against `new Date()`:
`now` is the ambient wall clock at the moment of the call, NOT the
`currentTime` argument of `findNextOptimalTimeSlot`. -/
def isPast (now date : Int) : Bool := date < now

/-- Models the same-day test inside `areTimeSlotsClose` (equality of the
(getFullYear, getMonth, getDate) triples). -/
def sameDay (slot1 slot2 : Int) : Bool := dayOf slot1 = dayOf slot2

/-- Models `areTimeSlotsClose(slot1, slot2, minutesThreshold)`: true iff the
two times are on the same calendar day and at most `minutesThreshold` minutes
apart.  `|slot1 - slot2| / 60000 ≤ thr` over the rationals is equivalent to
`|slot1 - slot2| ≤ thr * 60000` over the integers. -/
def areTimeSlotsClose (slot1 slot2 minutesThreshold : Int) : Bool :=
  sameDay slot1 slot2 && ((slot1 - slot2).natAbs : Int) ≤ minutesThreshold * 60000

/-- The inner `for (const timeSlot of OPTIMAL_POSTING_TIMES)` loop of
`findNextOptimalTimeSlot`, for one target day: returns the first preference
slot on `targetDay`'s calendar day that is neither past (w.r.t. the ambient
clock `now`) nor within 30 minutes of a same-day scheduled time.
The source leaves `minutesThreshold` at its default, 30. -/
def firstSlotOfDay (scheduledTimes : List Int) (now targetDay : Int) :
    List TimePref → Option Int
  | [] => none
  | p :: rest =>
    let slotTime := createTimeSlot targetDay p.hour p.minute
    if isPast now slotTime then firstSlotOfDay scheduledTimes now targetDay rest
    else if scheduledTimes.any (fun s => areTimeSlotsClose slotTime s 30) then
      firstSlotOfDay scheduledTimes now targetDay rest
    else some slotTime

/-- The outer `while (daysToLookAhead < MAX_DAYS_TO_LOOK)` loop: `daysLeft` is
the number of days still to examine, and `targetDay.setDate(getDate() + 1)`
becomes `targetDay + msPerDay` (next calendar day, same time of day). -/
def searchDays (scheduledTimes : List Int) (now : Int) :
    Int → Nat → Option Int
  | _, 0 => none
  | targetDay, Nat.succ k =>
    match firstSlotOfDay scheduledTimes now targetDay OPTIMAL_POSTING_TIMES with
    | some s => some s
    | none => searchDays scheduledTimes now (targetDay + msPerDay) k

def MAX_DAYS_TO_LOOK : Nat := 7

/-- Models `findNextOptimalTimeSlot(scheduledPosts, currentTime)`.
`scheduledTimes` are the parsed `new Date(post)` values of the ISO strings;
`now` is the ambient wall clock read by `isPast` (`new Date()`), made explicit
because the source consults it independently of `currentTime`.  On failure of
the 7-day search the source returns `createTimeSlot(tomorrow, 7, 0)` where
`tomorrow` is `currentTime` plus one day. -/
def findNextOptimalTimeSlot (scheduledTimes : List Int) (currentTime now : Int) : Int :=
  match searchDays scheduledTimes now currentTime MAX_DAYS_TO_LOOK with
  | some s => s
  | none =>
    let tomorrow := currentTime + msPerDay
    createTimeSlot tomorrow (OPTIMAL_POSTING_TIMES.get ⟨0, by decide⟩).hour
      (OPTIMAL_POSTING_TIMES.get ⟨0, by decide⟩).minute

/-- A slot is acceptable when it is not past and conflicts with no scheduled
time; this is the acceptance test of the search loop, factored out. -/
def acceptableSlot (scheduledTimes : List Int) (now slot : Int) : Bool :=
  !isPast now slot && !scheduledTimes.any (fun s => areTimeSlotsClose slot s 30)

/-- The 21 candidate slots the search examines, in examination order: for each
of the 7 days starting at `currentTime`'s day, the three preferences in list
order. -/
def candidateSlots (currentTime : Int) : List Int :=
  (List.range MAX_DAYS_TO_LOOK).flatMap fun i =>
    OPTIMAL_POSTING_TIMES.map fun p =>
      createTimeSlot (currentTime + (i : Int) * msPerDay) p.hour p.minute

/-! ## Arithmetic helpers -/

lemma dayOf_mul_add (k c : Int) (h0 : 0 ≤ c) (h1 : c < msPerDay) :
    dayOf (k * msPerDay + c) = k := by
  unfold dayOf msPerDay at *
  omega

lemma timeOfDay_mul_add (k c : Int) (h0 : 0 ≤ c) (h1 : c < msPerDay) :
    timeOfDay (k * msPerDay + c) = c := by
  unfold timeOfDay msPerDay at *
  omega

lemma hourOf_createTimeSlot (b h m : Int) (hh0 : 0 ≤ h) (hh : h < 24)
    (hm0 : 0 ≤ m) (hm : m < 60) : hourOf (createTimeSlot b h m) = h := by
  unfold hourOf timeOfDay createTimeSlot dayOf msPerDay msPerHour msPerMinute at *
  omega

lemma minuteOf_createTimeSlot (b h m : Int)
    (hm0 : 0 ≤ m) (hm : m < 60) : minuteOf (createTimeSlot b h m) = m := by
  unfold minuteOf timeOfDay createTimeSlot dayOf msPerDay msPerHour msPerMinute at *
  omega

lemma le_createTimeSlot_next_day (t h m : Int) (hh0 : 0 ≤ h) (hm0 : 0 ≤ m) :
    t < createTimeSlot (t + msPerDay) h m := by
  unfold createTimeSlot dayOf msPerDay msPerHour msPerMinute at *
  omega

lemma dayOf_createTimeSlot_next_day (t : Int) :
    dayOf (createTimeSlot (t + msPerDay) 7 0) = dayOf t + 1 := by
  unfold createTimeSlot dayOf msPerDay msPerHour msPerMinute
  omega

/-! ## The search loop as a first-match over the candidate list -/

lemma firstSlotOfDay_eq_find (sched : List Int) (now targetDay : Int)
    (prefs : List TimePref) :
    firstSlotOfDay sched now targetDay prefs =
      (prefs.map fun p => createTimeSlot targetDay p.hour p.minute).find?
        (acceptableSlot sched now) := by
  induction prefs with
  | nil => rfl
  | cons p rest ih =>
    cases h1 : isPast now (createTimeSlot targetDay p.hour p.minute) <;>
      cases h2 : sched.any
          (fun s => areTimeSlotsClose (createTimeSlot targetDay p.hour p.minute) s 30) <;>
      simp [firstSlotOfDay, acceptableSlot, h1, h2, ih, List.find?_cons]

lemma searchDays_eq_find (sched : List Int) (now : Int) (k : Nat) (targetDay : Int) :
    searchDays sched now targetDay k =
      ((List.range k).flatMap fun i =>
        OPTIMAL_POSTING_TIMES.map fun p =>
          createTimeSlot (targetDay + (i : Int) * msPerDay) p.hour p.minute).find?
        (acceptableSlot sched now) := by
  induction k generalizing targetDay with
  | zero => rfl
  | succ n ih =>
    have hL : searchDays sched now targetDay (n + 1) =
        (firstSlotOfDay sched now targetDay OPTIMAL_POSTING_TIMES).or
          (searchDays sched now (targetDay + msPerDay) n) := by
      cases h : firstSlotOfDay sched now targetDay OPTIMAL_POSTING_TIMES <;>
        simp [searchDays, h]
    rw [hL, firstSlotOfDay_eq_find, ih, List.range_succ_eq_map]
    rw [List.flatMap_cons, List.find?_append]
    congr 1
    · congr 2
      funext p
      congr 1
      simp
    · congr 1
      rw [List.flatMap_map]
      congr 1
      funext i
      congr 1
      push_cast
      ring_nf

lemma findNextOptimalTimeSlot_eq_find (sched : List Int) (currentTime now : Int) :
    findNextOptimalTimeSlot sched currentTime now =
      ((candidateSlots currentTime).find? (acceptableSlot sched now)).getD
        (createTimeSlot (currentTime + msPerDay) 7 0) := by
  unfold findNextOptimalTimeSlot candidateSlots
  rw [searchDays_eq_find]
  cases h : ((List.range MAX_DAYS_TO_LOOK).flatMap fun i =>
      OPTIMAL_POSTING_TIMES.map fun p =>
        createTimeSlot (currentTime + (i : Int) * msPerDay) p.hour p.minute).find?
      (acceptableSlot sched now) <;>
    simp [OPTIMAL_POSTING_TIMES]

lemma acceptableSlot_not_past {sched : List Int} {now s : Int}
    (h : acceptableSlot sched now s = true) : now ≤ s := by
  unfold acceptableSlot isPast at h
  simp at h
  omega

lemma acceptableSlot_no_conflict {sched : List Int} {now s : Int}
    (h : acceptableSlot sched now s = true) :
    ∀ u ∈ sched, areTimeSlotsClose s u 30 = false := by
  unfold acceptableSlot at h
  simp [List.any_eq_true] at h
  intro u hu
  exact h.2 u hu

lemma mem_candidateSlots {currentTime s : Int} (h : s ∈ candidateSlots currentTime) :
    ∃ p ∈ OPTIMAL_POSTING_TIMES, ∃ b : Int, s = createTimeSlot b p.hour p.minute := by
  unfold candidateSlots at h
  simp [List.mem_flatMap] at h
  obtain ⟨i, _, p, hp, hs⟩ := h
  exact ⟨p, hp, currentTime + (i : Int) * msPerDay, hs.symm⟩

/-! ## Translation invariance under whole-day shifts -/

lemma dayOf_add_days (t k : Int) : dayOf (t + k * msPerDay) = dayOf t + k := by
  unfold dayOf msPerDay
  omega

lemma createTimeSlot_add_days (b k h m : Int) :
    createTimeSlot (b + k * msPerDay) h m = createTimeSlot b h m + k * msPerDay := by
  unfold createTimeSlot dayOf msPerDay msPerHour msPerMinute
  omega

lemma isPast_add_days (now d k : Int) :
    isPast (now + k * msPerDay) (d + k * msPerDay) = isPast now d := by
  unfold isPast
  exact decide_eq_decide.mpr (by omega)

lemma areTimeSlotsClose_add_days (s u k thr : Int) :
    areTimeSlotsClose (s + k * msPerDay) (u + k * msPerDay) thr =
      areTimeSlotsClose s u thr := by
  unfold areTimeSlotsClose sameDay
  rw [show s + k * msPerDay - (u + k * msPerDay) = s - u by ring,
    dayOf_add_days, dayOf_add_days]
  congr 1
  exact decide_eq_decide.mpr (by omega)

lemma acceptableSlot_add_days (sched : List Int) (now s k : Int) :
    acceptableSlot (sched.map fun u => u + k * msPerDay) (now + k * msPerDay)
      (s + k * msPerDay) = acceptableSlot sched now s := by
  unfold acceptableSlot
  rw [isPast_add_days, List.any_map]
  have hf : ((fun u => areTimeSlotsClose (s + k * msPerDay) u 30) ∘
        fun u => u + k * msPerDay) = fun u => areTimeSlotsClose s u 30 :=
    funext fun u => areTimeSlotsClose_add_days s u k 30
  rw [hf]

lemma candidateSlots_add_days (t k : Int) :
    candidateSlots (t + k * msPerDay) =
      (candidateSlots t).map fun s => s + k * msPerDay := by
  unfold candidateSlots
  rw [List.map_flatMap]
  congr 1
  funext i
  rw [List.map_map]
  congr 1
  funext p
  rw [show t + k * msPerDay + (i : Int) * msPerDay
      = t + (i : Int) * msPerDay + k * msPerDay by ring,
    createTimeSlot_add_days]
  rfl

lemma findNextOptimalTimeSlot_add_days (sched : List Int) (t now k : Int) :
    findNextOptimalTimeSlot (sched.map fun u => u + k * msPerDay)
      (t + k * msPerDay) (now + k * msPerDay) =
      findNextOptimalTimeSlot sched t now + k * msPerDay := by
  rw [findNextOptimalTimeSlot_eq_find, findNextOptimalTimeSlot_eq_find,
    candidateSlots_add_days, List.find?_map]
  have hp : (acceptableSlot (sched.map fun u => u + k * msPerDay)
        (now + k * msPerDay)) ∘ (fun s => s + k * msPerDay) =
      acceptableSlot sched now :=
    funext fun s => acceptableSlot_add_days sched now s k
  rw [hp, show t + k * msPerDay + msPerDay = t + msPerDay + k * msPerDay by ring,
    createTimeSlot_add_days]
  cases (candidateSlots t).find? (acceptableSlot sched now) <;> rfl

/-! ## Client API data model (api.ts) -/

/-- The `status` union type of the client `Post` interface (api.ts):
`draft | scheduled | posted | failed`.  The same union is used by
`CreatePostPayload.status` and `UpdatePostPayload.status` (`Post[status]`). -/
inductive PostStatus where
  | draft
  | scheduled
  | posted
  | failed
deriving DecidableEq, Repr

/-- The JSON string each `PostStatus` value serialises to. -/
def PostStatus.toJson : PostStatus → String
  | .draft => "draft"
  | .scheduled => "scheduled"
  | .posted => "posted"
  | .failed => "failed"

/-- The status set named by the specification: `draft`, `scheduled`,
`posting`, `posted`, `failed`. -/
def specStatusSet : List String :=
  ["draft", "scheduled", "posting", "posted", "failed"]

/-- The literal status string that `PostsApi.postNow` sends in its PUT body:
`JSON.stringify(\x7b status: 'post_now' \x7d)`. -/
def postNowRequestStatus : String := "post_now"

/-- The client `Post` record of api.ts; the optional `post_id` is an
`Option`. -/
structure Post where
  id : Int
  content : String
  scheduled_time : String
  status : PostStatus
  platform : String
  post_id : Option String
deriving DecidableEq, Repr

/-! ## SSE client handler (useSSE) -/

/-- The events the `useSSE` handler recognises: `type` is one of
`connected`, `heartbeat`, `post_update`, with an optional `data` payload. -/
inductive SSEEvent where
  | connected
  | heartbeat
  | post_update (data : Option Post)
deriving DecidableEq, Repr

/-- Effect of one received SSE message on the React Query posts cache (the
`switch (data.type)` in `useSSE`'s `onmessage`): `connected` and `heartbeat`
do not touch the cache; `post_update` with no payload does nothing (the
`if (data.data)` guard); `post_update` with payload `p` runs
`queryClient.setQueryData`, whose updater returns `undefined` when the cache
is absent and otherwise maps over the cached list replacing each post whose
`id` equals `p.id` by `p`. -/
def applySSEEvent (e : SSEEvent) (cache : Option (List Post)) :
    Option (List Post) :=
  match e with
  | .connected => cache
  | .heartbeat => cache
  | .post_update none => cache
  | .post_update (some p) =>
    match cache with
    | none => none
    | some oldPosts =>
      some (oldPosts.map fun post => if post.id = p.id then p else post)

lemma pref_bounds {p : TimePref} (hp : p ∈ OPTIMAL_POSTING_TIMES) :
    0 ≤ p.hour ∧ p.hour < 24 ∧ 0 ≤ p.minute ∧ p.minute < 60 := by
  simp [OPTIMAL_POSTING_TIMES] at hp
  rcases hp with rfl | rfl | rfl <;> refine ⟨by norm_num, by norm_num, by norm_num, by norm_num⟩

lemma candidateSlots_length (t : Int) : (candidateSlots t).length = 21 := rfl

/-! ## Claims -/

/-- C1: for every list of existing scheduled times and every current time
`from` (the call happens at `from`, so the clock `isPast` consults reads
`from`), `findNextOptimalTimeSlot` returns a time not before `from` whose
(hour, minute) pair is one of the three preference slots of
`OPTIMAL_POSTING_TIMES` (7:00, 11:00 or 18:00). -/
theorem findNextOptimalTimeSlot_not_before_from_and_on_preference
    (sched : List Int) (t : Int) :
    t ≤ findNextOptimalTimeSlot sched t t ∧
      ∃ p ∈ OPTIMAL_POSTING_TIMES,
        hourOf (findNextOptimalTimeSlot sched t t) = p.hour ∧
        minuteOf (findNextOptimalTimeSlot sched t t) = p.minute := by
  rw [findNextOptimalTimeSlot_eq_find]
  cases h : (candidateSlots t).find? (acceptableSlot sched t) with
  | none =>
    simp only [Option.getD_none]
    refine ⟨le_of_lt (le_createTimeSlot_next_day t 7 0 (by norm_num) (by norm_num)),
      ⟨7, 0⟩, by decide, ?_, ?_⟩
    · exact hourOf_createTimeSlot _ 7 0 (by norm_num) (by norm_num) (by norm_num) (by norm_num)
    · exact minuteOf_createTimeSlot _ 7 0 (by norm_num) (by norm_num)
  | some s =>
    simp only [Option.getD_some]
    have hacc := List.find?_some h
    have hmem := List.mem_of_find?_eq_some h
    obtain ⟨p, hp, b, hs⟩ := mem_candidateSlots hmem
    obtain ⟨b1, b2, b3, b4⟩ := pref_bounds hp
    refine ⟨acceptableSlot_not_past hacc, p, hp, ?_, ?_⟩
    · rw [hs]
      exact hourOf_createTimeSlot b p.hour p.minute b1 b2 b3 b4
    · rw [hs]
      exact minuteOf_createTimeSlot b p.hour p.minute b3 b4

/-- C2, counterexample: with all 21 candidate slots of the week occupied
(`candidateSlots 0` as the existing times, `from` = epoch day 0 at 00:00),
the function returns 7:00 on day 1 — the day after `from` — and not 7:00 on
day 7, the day after the last of the 7 searched days, as the claim states. -/
theorem fallback_counterexample :
    searchDays (candidateSlots 0) 0 0 MAX_DAYS_TO_LOOK = none ∧
    findNextOptimalTimeSlot (candidateSlots 0) 0 0 = 111600000 ∧
    dayOf (findNextOptimalTimeSlot (candidateSlots 0) 0 0) = 1 ∧
    dayOf (findNextOptimalTimeSlot (candidateSlots 0) 0 0) ≠ dayOf 0 + 7 := by
  decide

/-- C2, amended: when the 7-day search finds no slot, the function returns
the first preference (7:00) on the day immediately following the day of
`from` ("tomorrow morning"), not the day following the horizon. -/
theorem fallback_tomorrow_morning (sched : List Int) (t now : Int)
    (h : searchDays sched now t MAX_DAYS_TO_LOOK = none) :
    findNextOptimalTimeSlot sched t now = createTimeSlot (t + msPerDay) 7 0 ∧
    dayOf (findNextOptimalTimeSlot sched t now) = dayOf t + 1 ∧
    hourOf (findNextOptimalTimeSlot sched t now) = 7 ∧
    minuteOf (findNextOptimalTimeSlot sched t now) = 0 := by
  have he : findNextOptimalTimeSlot sched t now = createTimeSlot (t + msPerDay) 7 0 := by
    unfold findNextOptimalTimeSlot
    rw [h]
    rfl
  refine ⟨he, ?_, ?_, ?_⟩
  · rw [he]
    exact dayOf_createTimeSlot_next_day t
  · rw [he]
    exact hourOf_createTimeSlot _ 7 0 (by norm_num) (by norm_num) (by norm_num) (by norm_num)
  · rw [he]
    exact minuteOf_createTimeSlot _ 7 0 (by norm_num) (by norm_num)

/-- Witness for the amended C2 at a concrete input: all 21 slots occupied. -/
theorem fallback_tomorrow_morning_witness :
    findNextOptimalTimeSlot (candidateSlots 0) 0 0 =
      createTimeSlot ((0 : Int) + msPerDay) 7 0 ∧
    dayOf (findNextOptimalTimeSlot (candidateSlots 0) 0 0) = dayOf 0 + 1 ∧
    hourOf (findNextOptimalTimeSlot (candidateSlots 0) 0 0) = 7 ∧
    minuteOf (findNextOptimalTimeSlot (candidateSlots 0) 0 0) = 0 :=
  fallback_tomorrow_morning (candidateSlots 0) 0 0 (by decide)

/-- C3: a slot returned from inside the 7-day loop is strictly more than
30 minutes away from every existing time on its own calendar day, while an
existing time on a different calendar day is never close to it (never causes
rejection), however small the absolute distance. -/
theorem loop_slot_conflict_freedom (sched : List Int) (t now s : Int)
    (h : searchDays sched now t MAX_DAYS_TO_LOOK = some s) :
    (∀ u ∈ sched, dayOf u = dayOf s → (30 : Int) * 60000 < ((s - u).natAbs : Int)) ∧
    ∀ u : Int, dayOf u ≠ dayOf s → areTimeSlotsClose s u 30 = false := by
  rw [searchDays_eq_find] at h
  have hacc := List.find?_some h
  have hnc := acceptableSlot_no_conflict hacc
  constructor
  · intro u hu hd
    have hcl := hnc u hu
    unfold areTimeSlotsClose sameDay at hcl
    rcases Bool.and_eq_false_iff.mp hcl with hcl1 | hcl2
    · exact absurd hd.symm (by simpa using hcl1)
    · have := decide_eq_false_iff_not.mp hcl2
      omega
  · intro u hd
    unfold areTimeSlotsClose sameDay
    have hne : dayOf s ≠ dayOf u := fun hh => hd hh.symm
    simp [hne]

/-- Witness for C3: `from` = day 0 at 12:00, one existing time at 18:05 the
same day; the loop returns day 1 at 7:00. -/
theorem loop_slot_conflict_freedom_witness :
    searchDays [65100000] 43200000 43200000 MAX_DAYS_TO_LOOK = some 111600000 ∧
    ((∀ u ∈ [(65100000 : Int)], dayOf u = dayOf (111600000 : Int) →
        (30 : Int) * 60000 < (((111600000 : Int) - u).natAbs : Int)) ∧
      ∀ u : Int, dayOf u ≠ dayOf (111600000 : Int) →
        areTimeSlotsClose 111600000 u 30 = false) :=
  ⟨by decide,
    loop_slot_conflict_freedom [65100000] 43200000 43200000 111600000 (by decide)⟩

/-- C4: the function is not a function of its two arguments alone — the
ambient wall clock read by `isPast` changes the result.  With no existing
times and `currentTime` = day 0 at 12:00, a call at wall-clock 12:00 yields
18:00 of day 0, while a call at wall-clock 19:00 yields 7:00 of day 1. -/
theorem wall_clock_changes_result :
    findNextOptimalTimeSlot [] 43200000 43200000 = 64800000 ∧
    findNextOptimalTimeSlot [] 43200000 68400000 = 111600000 ∧
    findNextOptimalTimeSlot [] 43200000 43200000 ≠
      findNextOptimalTimeSlot [] 43200000 68400000 := by
  decide

/-- C5: the search is total and bounded: it examines exactly the 21 candidate
slots (7 days × 3 preferences, in day order then preference order, starting
at `from`'s day) and the result is the first acceptable candidate, or the
fixed fallback when none is. -/
theorem bounded_ordered_search (sched : List Int) (t now : Int) :
    (candidateSlots t).length = 21 ∧
    findNextOptimalTimeSlot sched t now =
      ((candidateSlots t).find? (acceptableSlot sched now)).getD
        (createTimeSlot (t + msPerDay) 7 0) :=
  ⟨candidateSlots_length t, findNextOptimalTimeSlot_eq_find sched t now⟩

/-- C6: preferences 7:00/11:00/18:00, `from` = any day `d` at 12:00 (the call
happening at `from`), no existing times: the result is 18:00 on `from`'s own
day. -/
theorem noon_empty_returns_same_day_evening (d : Int) :
    findNextOptimalTimeSlot [] (d * msPerDay + 12 * msPerHour)
      (d * msPerDay + 12 * msPerHour) =
      createTimeSlot (d * msPerDay + 12 * msPerHour) 18 0 := by
  have key := findNextOptimalTimeSlot_add_days [] 43200000 43200000 d
  simp only [List.map_nil] at key
  have e1 : (43200000 : Int) + d * msPerDay = d * msPerDay + 12 * msPerHour := by
    unfold msPerDay msPerHour
    ring
  rw [e1] at key
  rw [key, show findNextOptimalTimeSlot [] 43200000 43200000 = 64800000 from by decide]
  unfold createTimeSlot dayOf msPerDay msPerHour msPerMinute
  omega

/-- C7: same preferences, `from` = any day `d` at 12:00, one existing time at
18:05 of the same day; the 18:00 slot is within 30 minutes of it, so the
result is 7:00 on the following day. -/
theorem noon_conflict_returns_next_morning (d : Int) :
    findNextOptimalTimeSlot [d * msPerDay + 18 * msPerHour + 5 * msPerMinute]
      (d * msPerDay + 12 * msPerHour) (d * msPerDay + 12 * msPerHour) =
      createTimeSlot (d * msPerDay + 12 * msPerHour + msPerDay) 7 0 := by
  have key := findNextOptimalTimeSlot_add_days [65100000] 43200000 43200000 d
  simp only [List.map_cons, List.map_nil] at key
  have e1 : (43200000 : Int) + d * msPerDay = d * msPerDay + 12 * msPerHour := by
    unfold msPerDay msPerHour
    ring
  have e2 : (65100000 : Int) + d * msPerDay
      = d * msPerDay + 18 * msPerHour + 5 * msPerMinute := by
    unfold msPerDay msPerHour msPerMinute
    ring
  rw [e1, e2] at key
  rw [key, show findNextOptimalTimeSlot [65100000] 43200000 43200000 = 111600000 from by decide]
  unfold createTimeSlot dayOf msPerDay msPerHour msPerMinute
  omega

/-- C8, counterexample: the status string `PostsApi.postNow` sends is not in
the set the claim allows. -/
theorem postNow_status_outside_spec_set :
    postNowRequestStatus = "post_now" ∧ postNowRequestStatus ∉ specStatusSet := by
  refine ⟨rfl, by decide⟩

/-- C8, amended: every value of the client status union (the `status` of a
`Post` and of create/update payloads) serialises into the documented set
{draft, scheduled, posting, posted, failed}; the one exception at the client
API boundary is `postNow`, whose request body carries the out-of-set sentinel
`post_now`. -/
theorem client_status_values (s : PostStatus) :
    s.toJson ∈ specStatusSet ∧ postNowRequestStatus ∉ specStatusSet := by
  refine ⟨?_, by decide⟩
  cases s <;> decide

/-- C9: the client handles exactly the three event kinds; `connected` and
`heartbeat` leave the posts cache unchanged; `post_update` with payload `p`
replaces exactly the cached posts whose id equals `p.id`, preserving length
and every other entry in place, and inserts nothing when no cached post has
id `p.id`. -/
theorem sse_event_frame (cache : Option (List Post)) (p : Post) (posts : List Post) :
    (∀ e : SSEEvent, e = .connected ∨ e = .heartbeat ∨ ∃ d, e = .post_update d) ∧
    applySSEEvent .connected cache = cache ∧
    applySSEEvent .heartbeat cache = cache ∧
    applySSEEvent (.post_update (some p)) (some posts) =
      some (posts.map fun q => if q.id = p.id then p else q) ∧
    (posts.map fun q => if q.id = p.id then p else q).length = posts.length ∧
    (∀ i : Nat, (posts.map fun q => if q.id = p.id then p else q)[i]? =
      (posts[i]?).map fun q => if q.id = p.id then p else q) ∧
    ((∀ q ∈ posts, q.id ≠ p.id) →
      applySSEEvent (.post_update (some p)) (some posts) = some posts) := by
  refine ⟨?_, rfl, rfl, rfl, List.length_map _ _, fun i => List.getElem?_map _ _ _, ?_⟩
  · intro e
    cases e with
    | connected => exact Or.inl rfl
    | heartbeat => exact Or.inr (Or.inl rfl)
    | post_update d => exact Or.inr (Or.inr ⟨d, rfl⟩)
  · intro hno
    have hmap : posts.map (fun q => if q.id = p.id then p else q) = posts := by
      conv_rhs => rw [← List.map_id posts]
      exact List.map_congr_left fun q hq => if_neg (hno q hq)
    show some (posts.map fun q => if q.id = p.id then p else q) = some posts
    rw [hmap]

/-- C10: `areTimeSlotsClose` is symmetric in its two time slots, for every
threshold. -/
theorem areTimeSlotsClose_symm (s1 s2 thr : Int) :
    areTimeSlotsClose s1 s2 thr = areTimeSlotsClose s2 s1 thr := by
  unfold areTimeSlotsClose sameDay
  rw [show (s1 - s2).natAbs = (s2 - s1).natAbs by rw [← neg_sub s2 s1, Int.natAbs_neg]]
  congr 1
  exact decide_eq_decide.mpr (by omega)

end ForePoster
